import Mathlib

/-!
Verification of the spintax library (src/index.ts) against its specification.

Strings are modelled as lists of characters.  A parsed segment is a list of
alternative option strings, so a parsed template has type
List (List (List Char)).  Functions of the source that can fail to terminate
(the mutually recursive nested-spintax expansion) are embedded with an explicit
fuel parameter: a result of none (or JsRes.diverges) means the fuel ran out,
so the source computation reaches that recursion depth; a computation of the
source diverges exactly when the embedded one returns none for every fuel.
Runtime exceptions of the source (reading a property of undefined) are
modelled by JsRes.throws.  Randomness (Math.random) is modelled by an oracle
r : Nat -> Nat together with a running draw counter; the index drawn for a
segment of n options (n positive) is r k % n, which ranges over exactly the
indices Math.floor(Math.random() * n) can produce.
-/

namespace Spintax

/-- Index of the first open brace in the remaining input, as in
text.indexOf of the open brace character in parseSpintax. -/
def findBrace : List Char → Option Nat
  | [] => none
  | c :: cs => if c = '{' then some 0 else (findBrace cs).map (· + 1)

/-- Scan of parseSpintax that looks for the matching close brace: starting
from depth d (the source starts at 1, one past the open brace), returns the
index of the character at which the depth first becomes 0, or none when the
end of the input is reached first. -/
def findClose : List Char → Nat → Option Nat
  | [], _ => none
  | c :: cs, d =>
    let d' := if c = '{' then d + 1 else if c = '}' then d - 1 else d
    if d' = 0 then some 0 else (findClose cs d').map (· + 1)

/-- Loop of splitOptions from the source: current accumulates the option
being built, d is the running nesting depth; a pipe at depth 0 ends the
current option (pushed even when empty), the final option is pushed only
when non-empty. -/
def splitGo : List Char → List Char → Int → List (List Char)
  | [], cur, _ => if cur.isEmpty then [] else [cur]
  | c :: cs, cur, d =>
    if c = '{' then splitGo cs (cur ++ [c]) (d + 1)
    else if c = '}' then splitGo cs (cur ++ [c]) (d - 1)
    else if c = '|' ∧ d = 0 then cur :: splitGo cs [] d
    else splitGo cs (cur ++ [c]) d

/-- splitOptions from the source: split bracket content on pipes at nesting
depth 0. -/
def splitOptions (content : List Char) : List (List Char) := splitGo content [] 0

/-- One fuel unit per iteration of the scanning loop of parseSpintax.  The
loop body: find the next open brace (none: emit the remaining tail as a
literal and stop); emit any literal text before it; look for the matching
close brace; when there is none, emit the open brace itself as a
one-character literal segment and resume one position later; otherwise emit
the split bracket content as one segment and resume past the close brace.
Fuel 0 is never reached when starting from length + 1 fuel, because every
iteration consumes at least one character (proved below). -/
def parseAuxF : Nat → List Char → List (List (List Char))
  | 0, _ => []
  | fuel + 1, cs =>
    if cs.isEmpty then []
    else
      match findBrace cs with
      | none => [[cs]]
      | some i =>
        (if 0 < i then [[cs.take i]] else []) ++
          match findClose (cs.drop (i + 1)) 1 with
          | none => [['{']] :: parseAuxF fuel (cs.drop (i + 1))
          | some j =>
            splitOptions ((cs.drop (i + 1)).take j) :: parseAuxF fuel (cs.drop (i + j + 2))

/-- parseSpintax from the source.  The scanning loop runs at most
length-of-input iterations, so length + 1 fuel always suffices. -/
def parseSpintax (cs : List Char) : List (List (List Char)) :=
  parseAuxF (cs.length + 1) cs

/-- Apply a fallible function to every element of a list, failing as soon as
the function does: the loop over the options of a segment, which in the
source propagates a stack overflow of a nested expansion. -/
def optMapM {α β : Type} (f : α → Option β) : List α → Option (List β)
  | [] => some []
  | a :: l => do
    let b ← f a
    let bs ← optMapM f l
    some (b :: bs)

/-- generateAllCombinations together with processNestedSpintax from the
source: the first segment is the outer loop, the expansion of the remaining
segments the inner loop; an option containing an open brace is recursively
parsed and expanded.  Fuel none models the stack overflow the source runs
into when the nested recursion does not bottom out. -/
def genAllF : Nat → List (List (List Char)) → Option (List (List Char))
  | 0, _ => none
  | _ + 1, [] => some [[]]
  | fuel + 1, seg :: rest => do
    let restC ← genAllF fuel rest
    let ex ← optMapM (fun o =>
      if '{' ∈ o then genAllF fuel (parseSpintax o) else some [o]) seg
    some (ex.flatMap (fun ps => ps.flatMap (fun p => restC.map (fun rc => p ++ rc))))

/-- countCombinations from the source: product over segments of the sum over
options, where an option containing an open brace counts as the combination
count of its own parse.  Fuel as in genAllF. -/
def countF : Nat → List (List (List Char)) → Option Nat
  | 0, _ => none
  | _ + 1, [] => some 1
  | fuel + 1, seg :: rest => do
    let restC ← countF fuel rest
    let cs ← optMapM (fun o =>
      if '{' ∈ o then countF fuel (parseSpintax o) else some 1) seg
    some (cs.sum * restC)

/-- Result of a JavaScript computation: a value, a thrown runtime exception,
or divergence (modelled as fuel exhaustion). -/
inductive JsRes (α : Type) where
  | diverges : JsRes α
  | throws : JsRes α
  | ok : α → JsRes α
deriving DecidableEq

/-- True exactly on an ok result. -/
def JsRes.isOk {α : Type} : JsRes α → Bool
  | .ok _ => true
  | _ => false

/-- Body of the per-segment loop of generateRandomVariations: the state is
the variation built so far together with the draw counter.  An empty segment
throws, because the source then reads segment[0] which is undefined and
calls includes on it.  Otherwise the option at the drawn index is picked; if
it contains an open brace, one variation of it is sampled recursively (the
nested sampler is passed in as an argument), and a sampled empty nested
variation is discarded in favour of the raw option because the source
applies a truthiness test to it. -/
def buildStep (r : Nat → Nat) (nested : Nat → List Char → JsRes (List (List Char) × Nat)) :
    JsRes (List Char × Nat) → List (List Char) → JsRes (List Char × Nat) :=
  fun st seg =>
    match st with
    | .ok (v, k) =>
      if seg.isEmpty then .throws
      else
        let opt := seg.getD (r k % seg.length) []
        if '{' ∈ opt then
          match nested (k + 1) opt with
          | .ok (nv, k') =>
            .ok (v ++ (match nv with
              | [] => opt
              | x :: _ => if x.isEmpty then opt else x), k')
          | .throws => .throws
          | .diverges => .diverges
        else .ok (v ++ opt, k + 1)
    | e => e

/-- Body of the attempt loop of generateRandomVariations: while fewer than
count distinct results have been collected, build one candidate and keep it
when it is new; a candidate already seen is dropped but still consumed an
attempt. -/
def loopStep (count : Int) (build : Nat → JsRes (List Char × Nat)) :
    JsRes (List (List Char) × Nat) → Nat → JsRes (List (List Char) × Nat) :=
  fun st _ =>
    match st with
    | .ok (acc, k) =>
      if (acc.length : Int) < count then
        match build k with
        | .ok (v, k') => .ok ((if v ∈ acc then acc else acc ++ [v]), k')
        | .throws => .throws
        | .diverges => .diverges
      else st
    | e => e

/-- generateRandomVariations from the source.  r is the random oracle, k the
draw counter, count the requested number of distinct variations.  The
attempt loop runs over the budget of 10 * count attempts (none when the
count is not positive, exactly as in the source where the loop condition
fails immediately); each attempt builds one candidate with buildStep across
the segments, resolving nested spintax by a recursive call at smaller
fuel. -/
def gRVF : Nat → (Nat → Nat) → Nat → List (List (List Char)) → Int →
    JsRes (List (List Char) × Nat)
  | 0, _, _, _, _ => .diverges
  | fuel + 1, r, k, segs, count =>
    (List.range (10 * count).toNat).foldl
      (loopStep count (fun k0 =>
        segs.foldl
          (buildStep r (fun k1 o => gRVF fuel r k1 (parseSpintax o) 1))
          (.ok ([], k0))))
      (.ok ([], k))

/-- Statistics record returned by analyze. -/
structure SpintaxStats where
  totalCombinations : Nat
  spinElements : Nat
  averageOptionsPerSpin : ℚ
deriving DecidableEq

/-- Sum of the option counts of all segments, as computed by analyze. -/
def totalOptions (segs : List (List (List Char))) : Nat :=
  (segs.map List.length).sum

/-- Number of segments with more than one option, as computed by analyze. -/
def spinElems (segs : List (List (List Char))) : Nat :=
  (segs.filter (fun s => decide (1 < s.length))).length

/-- analyze from the source.  Note the guard of the average: the source
divides by the number of all segments but only when the number of spin
elements is positive, returning 0 otherwise. -/
def analyzeF (fuel : Nat) (cs : List Char) : Option SpintaxStats :=
  match countF fuel (parseSpintax cs) with
  | none => none
  | some total =>
    some
      { totalCombinations := total
        spinElements := spinElems (parseSpintax cs)
        averageOptionsPerSpin :=
          if 0 < spinElems (parseSpintax cs) then
            (totalOptions (parseSpintax cs) : ℚ) / ((parseSpintax cs).length : ℚ)
          else 0 }

/-- spin from the source: sample one variation and return it, falling back to
the input text when the sampled list is empty or its first entry is the
empty string (the source applies a truthiness test to variations[0]). -/
def spinF (fuel : Nat) (r : Nat → Nat) (cs : List Char) : JsRes (List Char) :=
  match gRVF fuel r 0 (parseSpintax cs) 1 with
  | .ok (vs, _) =>
    .ok (match vs with
      | [] => cs
      | v :: _ => if v.isEmpty then cs else v)
  | .throws => .throws
  | .diverges => .diverges

/-- JavaScript Array.prototype.slice(0, e): a negative end index counts from
the end of the array. -/
def jsSlice0 {α : Type} (l : List α) (e : Int) : List α :=
  if e < 0 then l.take ((l.length : Int) + e).toNat else l.take e.toNat

/-- Generation mode of generate. -/
inductive GenMode where
  | random | all | sequential
deriving DecidableEq

/-- Result record of generate. -/
structure SpintaxResult where
  variations : List (List Char)
  stats : SpintaxStats
  generatedCount : Nat
deriving DecidableEq

/-- Dispatch of generate on the mode: mode all truncates the full expansion
at min(totalCombinations, 1000), mode sequential is generateSequentialVariations,
the full expansion sliced at min(count, 1000), mode random samples
min(count, 100) variations. -/
def modeVariations (fuel : Nat) (r : Nat → Nat) (segs : List (List (List Char)))
    (count : Int) (stats : SpintaxStats) : GenMode → JsRes (List (List Char))
  | .all =>
    match genAllF fuel segs with
    | none => .diverges
    | some l => .ok (l.take (min stats.totalCombinations 1000))
  | .sequential =>
    match genAllF fuel segs with
    | none => .diverges
    | some l => .ok (jsSlice0 l (min count 1000))
  | .random =>
    match gRVF fuel r 0 segs (min count 100) with
    | .ok (l, _) => .ok l
    | .throws => .throws
    | .diverges => .diverges

/-- generate from the source: parse, compute stats, dispatch on the mode,
and return the variations together with the stats and the produced count. -/
def generateF (fuel : Nat) (r : Nat → Nat) (cs : List Char) (count : Int)
    (mode : GenMode) : JsRes SpintaxResult :=
  match analyzeF fuel cs with
  | none => .diverges
  | some stats =>
    match modeVariations fuel r (parseSpintax cs) count stats mode with
    | .ok l => .ok { variations := l, stats := stats, generatedCount := l.length }
    | .throws => .throws
    | .diverges => .diverges

/-- Loop of validate from the source: running depth, increment on open brace,
decrement on close brace, false as soon as the depth is negative, true only
when the final depth is 0. -/
def validateGo : List Char → Int → Bool
  | [], d => d == 0
  | c :: cs, d =>
    let d' := if c = '{' then d + 1 else if c = '}' then d - 1 else d
    if d' < 0 then false else validateGo cs d'

/-- validate from the source. -/
def validateS (cs : List Char) : Bool := validateGo cs 0

/-- extractOptions from the source: the parsed segments with more than one
option. -/
def extractOptions (cs : List Char) : List (List (List Char)) :=
  (parseSpintax cs).filter (fun s => decide (1 < s.length))

/-- Net brace balance of a string: open braces minus close braces.  This is
the specification-side depth counter for the validate claim. -/
def bal (cs : List Char) : Int :=
  ((cs.filter (fun c => decide (c = '{'))).length : Int) -
    ((cs.filter (fun c => decide (c = '}'))).length : Int)

/-- Recursive cleanliness of a parsed template: every segment has at least
one option, and every option containing an open brace parses, recursively
within the fuel bound, to a clean template again.  An input whose parse is
clean at some fuel is exactly one on which the nested recursion of the
source bottoms out and no empty alternative set is ever indexed: unmatched
open braces (whose one-character literal segment reproduces itself under
reparsing) and empty brackets both make cleanliness false at every fuel. -/
def cleanSegsF : Nat → List (List (List Char)) → Bool
  | 0, _ => false
  | _ + 1, [] => true
  | fuel + 1, seg :: rest =>
    !seg.isEmpty &&
      seg.all (fun o => if '{' ∈ o then cleanSegsF fuel (parseSpintax o) else true) &&
      cleanSegsF fuel rest

/-- The source computation of spin on the single-character input consisting
of one open brace diverges: it exhausts every fuel bound, because the
unmatched open brace parses to a literal segment containing itself, which
the sampler then recursively reparses forever. -/
def spinDivergesOnOpenBrace : Prop :=
  ∀ (fuel : Nat) (r : Nat → Nat), spinF fuel r ['{'] = JsRes.diverges

/-- The variations list of a successful generate call. -/
def okVariations : JsRes SpintaxResult → Option (List (List Char))
  | .ok res => some res.variations
  | _ => none

/- Helper lemmas about the embedding. -/

lemma bal_cons (c : Char) (cs : List Char) :
    bal (c :: cs) =
      (if c = '{' then 1 else if c = '}' then (-1 : Int) else 0) + bal cs := by
  by_cases h1 : c = '{' <;> by_cases h2 : c = '}' <;>
    simp [bal, List.filter_cons, h1, h2] <;> omega

lemma validateGo_iff :
    ∀ (cs : List Char) (d : Int), 0 ≤ d →
      (validateGo cs d = true ↔
        (∀ n : Nat, 0 ≤ d + bal (cs.take n)) ∧ d + bal cs = 0) := by
  intro cs
  induction cs with
  | nil =>
    intro d hd
    constructor
    · intro h
      simp only [validateGo, beq_iff_eq] at h
      exact ⟨fun n => by simp [bal, h], by simp [bal, h]⟩
    · rintro ⟨-, h2⟩
      simp only [validateGo, beq_iff_eq]
      simpa [bal] using h2
  | cons c cs ih =>
    intro d hd
    have hδ :
        (if c = '{' then d + 1 else if c = '}' then d - 1 else d) =
          d + (if c = '{' then 1 else if c = '}' then (-1 : Int) else 0) := by
      split_ifs <;> ring
    have hstep :
        validateGo (c :: cs) d =
          if (if c = '{' then d + 1 else if c = '}' then d - 1 else d) < 0 then false
          else validateGo cs (if c = '{' then d + 1 else if c = '}' then d - 1 else d) := rfl
    set δ : Int := if c = '{' then 1 else if c = '}' then (-1 : Int) else 0 with hδdef
    have hbal : ∀ n : Nat, bal ((c :: cs).take (n + 1)) = δ + bal (cs.take n) := by
      intro n
      rw [List.take_succ_cons, bal_cons]
    by_cases hneg : (if c = '{' then d + 1 else if c = '}' then d - 1 else d) < 0
    · rw [hstep, if_pos hneg]
      constructor
      · intro h
        exact absurd h (by simp)
      · rintro ⟨hall, -⟩
        exfalso
        have h1 := hall 1
        rw [show (1 : Nat) = 0 + 1 from rfl, hbal 0] at h1
        simp only [List.take_zero, bal, List.filter_nil, List.length_nil] at h1
        rw [hδ] at hneg
        omega
    · rw [hstep, if_neg hneg]
      rw [hδ] at hneg ⊢
      have hd' : 0 ≤ d + δ := by omega
      rw [ih (d + δ) hd']
      constructor
      · rintro ⟨hall, hend⟩
        refine ⟨fun n => ?_, ?_⟩
        · cases n with
          | zero => simpa [bal] using hd
          | succ n =>
            rw [hbal n]
            have := hall n
            omega
        · rw [bal_cons, ← hδdef]
          have := hend
          omega
      · rintro ⟨hall, hend⟩
        refine ⟨fun n => ?_, ?_⟩
        · have := hall (n + 1)
          rw [hbal n] at this
          omega
        · rw [bal_cons, ← hδdef] at hend
          omega

lemma findBrace_lt_length :
    ∀ {cs : List Char} {i : Nat}, findBrace cs = some i → i < cs.length := by
  intro cs
  induction cs with
  | nil => intro i h; simp [findBrace] at h
  | cons c cs ih =>
    intro i h
    simp only [findBrace] at h
    by_cases hc : c = '{'
    · rw [if_pos hc] at h
      cases h
      simp
    · rw [if_neg hc] at h
      rcases Option.map_eq_some'.mp h with ⟨j, hj, rfl⟩
      have := ih hj
      simp only [List.length_cons]
      omega

lemma parseAuxF_congr :
    ∀ (fuel fuel' : Nat) (cs : List Char),
      cs.length < fuel → cs.length < fuel' → parseAuxF fuel cs = parseAuxF fuel' cs := by
  intro fuel
  induction fuel with
  | zero => intro fuel' cs h; omega
  | succ f ih =>
    intro fuel' cs h h'
    obtain ⟨f', rfl⟩ : ∃ f'', fuel' = f'' + 1 := ⟨fuel' - 1, by omega⟩
    by_cases hcs : cs.isEmpty
    · simp [parseAuxF, hcs]
    · have hlen : 1 ≤ cs.length := by
        cases cs
        · simp at hcs
        · simp
      simp only [parseAuxF, hcs, Bool.false_eq_true, if_false]
      cases hfb : findBrace cs with
      | none => rfl
      | some i =>
        have hi : i < cs.length := findBrace_lt_length hfb
        cases hfc : findClose (cs.drop (i + 1)) 1 with
        | none =>
          simp only [hfc]
          rw [ih f' (cs.drop (i + 1)) (by simp [List.length_drop]; omega)
            (by simp [List.length_drop]; omega)]
        | some j =>
          simp only [hfc]
          rw [ih f' (cs.drop (i + j + 2)) (by simp [List.length_drop]; omega)
            (by simp [List.length_drop]; omega)]

/- Claim C6. -/

/-- C6: validate returns true exactly when the running brace depth counter,
incremented on an open brace and decremented on a close brace, is never
negative on any prefix of the input and is exactly zero at its end. -/
theorem C6_validate_iff_balanced (cs : List Char) :
    validateS cs = true ↔ (∀ n : Nat, 0 ≤ bal (cs.take n)) ∧ bal cs = 0 := by
  have h := validateGo_iff cs 0 le_rfl
  simpa [validateS] using h

/-- Witness for C6 at a concrete balanced input. -/
theorem C6_validate_iff_balanced_witness : bal ['{', 'a', '}'] = 0 :=
  ((C6_validate_iff_balanced ['{', 'a', '}']).mp (by decide)).2

/- Claims C10 and C8, on the scanner. -/

/-- C10: every iteration of the scanning loop of parseSpintax consumes at
least one input character, so the loop runs at most length-of-input
iterations: any fuel bound exceeding the input length yields the very same
segment list, hence parsing terminates on every input. -/
theorem C10_parse_terminates (fuel : Nat) (cs : List Char) (h : cs.length < fuel) :
    parseAuxF fuel cs = parseSpintax cs :=
  parseAuxF_congr fuel (cs.length + 1) cs h (Nat.lt_succ_self _)

/-- Witness for C10: a generous fuel bound computes the same parse. -/
theorem C10_parse_terminates_witness :
    parseAuxF 10 ['{', 'a', '}'] = parseSpintax ['{', 'a', '}'] :=
  C10_parse_terminates 10 ['{', 'a', '}'] (by decide)

/-- C8: when the open brace found at index i has no matching close brace
before the end of the input, parseSpintax emits any literal text before it,
then the open brace itself as a one-character literal segment, and resumes
scanning from the position one past that brace; in particular parsing never
fails. -/
theorem C8_unmatched_open_brace (cs : List Char) (i : Nat)
    (hb : findBrace cs = some i) (hc : findClose (cs.drop (i + 1)) 1 = none) :
    parseSpintax cs =
      (if 0 < i then [[cs.take i]] else []) ++ [['{']] :: parseSpintax (cs.drop (i + 1)) := by
  have hne : cs.isEmpty = false := by
    cases cs
    · simp [findBrace] at hb
    · rfl
  have hi : i < cs.length := findBrace_lt_length hb
  have hlen : 1 ≤ cs.length := by omega
  show parseAuxF (cs.length + 1) cs = _
  simp only [parseAuxF, hne, Bool.false_eq_true, if_false, hb, hc]
  rw [parseAuxF_congr cs.length (cs.length - (i + 1) + 1) (cs.drop (i + 1))
    (by simp [List.length_drop]; omega) (by simp [List.length_drop])]
  simp [parseSpintax, List.length_drop]

/-- Witness for C8 at the concrete input a, open brace, b. -/
theorem C8_unmatched_open_brace_witness :
    parseSpintax ['a', '{', 'b'] =
      (if 0 < 1 then [[['a', '{', 'b'].take 1]] else []) ++
        [['{']] :: parseSpintax (['a', '{', 'b'].drop (1 + 1)) :=
  C8_unmatched_open_brace ['a', '{', 'b'] 1 (by decide) (by decide)

/- Claim C1: counting is consistent with exhaustive expansion. -/

lemma crossLen (ps restC : List (List Char)) :
    (ps.flatMap (fun p => restC.map (fun rc => p ++ rc))).length =
      ps.length * restC.length := by
  induction ps with
  | nil => simp
  | cons p ps ih => simp [ih, Nat.succ_mul, Nat.add_comm]

lemma exLen (ex : List (List (List Char))) (restC : List (List Char)) :
    (ex.flatMap (fun ps => ps.flatMap (fun p => restC.map (fun rc => p ++ rc)))).length =
      (ex.map List.length).sum * restC.length := by
  induction ex with
  | nil => simp
  | cons ps ex ih =>
    rw [List.flatMap_cons, List.length_append, crossLen, ih, List.map_cons,
      List.sum_cons, Nat.add_mul]

lemma optMapM_map_rel {α β γ : Type} (h : β → γ) (f : α → Option γ) (g : α → Option β) :
    ∀ l : List α, (∀ a ∈ l, f a = (g a).map h) →
      optMapM f l = (optMapM g l).map (List.map h) := by
  intro l
  induction l with
  | nil => intro _; rfl
  | cons a l ih =>
    intro hfg
    simp only [optMapM, bind, Option.bind]
    cases hga : g a with
    | none => simp [hfg a (List.mem_cons_self a l), hga]
    | some b =>
      have hfa : f a = some (h b) := by simp [hfg a (List.mem_cons_self a l), hga]
      rw [hfa, ih (fun x hx => hfg x (List.mem_cons_of_mem a hx))]
      cases optMapM g l with
      | none => rfl
      | some bs => rfl

lemma countF_eq_genAllF :
    ∀ (fuel : Nat) (segs : List (List (List Char))),
      countF fuel segs = (genAllF fuel segs).map List.length := by
  intro fuel
  induction fuel with
  | zero => intro segs; rfl
  | succ fuel ih =>
    intro segs
    cases segs with
    | nil => rfl
    | cons seg rest =>
      simp only [countF, genAllF, bind, Option.bind]
      have hopt : ∀ o ∈ seg,
          (if '{' ∈ o then countF fuel (parseSpintax o) else some 1) =
            ((if '{' ∈ o then genAllF fuel (parseSpintax o) else some [o]).map
              List.length) := by
        intro o _
        by_cases h : '{' ∈ o
        · simp [h, ih]
        · simp [h]
      rw [optMapM_map_rel List.length _ _ seg hopt, ih rest]
      cases genAllF fuel rest with
      | none => rfl
      | some restC =>
        cases optMapM
            (fun o => if '{' ∈ o then genAllF fuel (parseSpintax o) else some [o]) seg with
        | none => rfl
        | some ex =>
          show some ((ex.map List.length).sum * restC.length) =
            some ((ex.flatMap
              (fun ps => ps.flatMap (fun p => restC.map (fun rc => p ++ rc)))).length)
          rw [exLen]

/-- C1: for every input, the combination count computed by countCombinations
on the parse equals the length of the list produced by
generateAllCombinations on the same parse, at every fuel bound (so both
sides also fail together on inputs whose nested expansion does not bottom
out); and on the empty segment list the counter returns 1 while the expander
returns the single empty string. -/
theorem C1_count_matches_expansion :
    (∀ (fuel : Nat) (cs : List Char),
      countF fuel (parseSpintax cs) = (genAllF fuel (parseSpintax cs)).map List.length) ∧
    (∀ fuel : Nat, countF (fuel + 1) [] = some 1 ∧ genAllF (fuel + 1) [] = some [[]]) :=
  ⟨fun fuel cs => countF_eq_genAllF fuel (parseSpintax cs), fun _ => ⟨rfl, rfl⟩⟩

/- Claim C9: extractOptions keeps exactly the multi-option segments. -/

/-- C9: extractOptions returns a sublist of the parsed segments (so source
order is preserved), every returned segment has more than one option, each
multi-option segment occurs in the output exactly as often as among the
parsed segments, and segments with at most one option are omitted. -/
theorem C9_extract_options (cs : List Char) :
    (extractOptions cs).Sublist (parseSpintax cs) ∧
    (∀ s ∈ extractOptions cs, 1 < s.length) ∧
    (∀ s ∈ parseSpintax cs, 1 < s.length →
      (extractOptions cs).count s = (parseSpintax cs).count s) ∧
    (∀ s ∈ parseSpintax cs, s.length ≤ 1 → s ∉ extractOptions cs) := by
  refine ⟨List.filter_sublist _, ?_, ?_, ?_⟩
  · intro s hs
    have := List.of_mem_filter hs
    simpa using this
  · intro s _ h
    exact List.count_filter (by simpa using h)
  · intro s _ h hmem
    have := List.of_mem_filter hmem
    simp at this
    omega

/-- Witness for C9 at a template with one spin element and one literal. -/
theorem C9_extract_options_witness :
    (extractOptions ['{', 'a', '|', 'b', '}', ' ']).count [['a'], ['b']] =
      (parseSpintax ['{', 'a', '|', 'b', '}', ' ']).count [['a'], ['b']] :=
  (C9_extract_options ['{', 'a', '|', 'b', '}', ' ']).2.2.1 [['a'], ['b']]
    (by decide) (by decide)

/- Claim C4: the average statistic and its guard. -/

/-- C4 counterexample: on the plain one-character input a the parse has one
segment with one option, so the claimed formula total options over total
segments gives 1, yet the source reports average 0 because its guard tests
the spin-element count, not the segment count. -/
theorem C4_counterexample :
    (analyzeF 10 ['a']).map SpintaxStats.averageOptionsPerSpin = some 0 ∧
    (parseSpintax ['a']).length ≠ 0 ∧
    (totalOptions (parseSpintax ['a']) : ℚ) / ((parseSpintax ['a']).length : ℚ) ≠ 0 := by
  refine ⟨by decide, by decide, ?_⟩
  have h1 : totalOptions (parseSpintax ['a']) = 1 := by decide
  have h2 : (parseSpintax ['a']).length = 1 := by decide
  rw [h1, h2]
  norm_num

/-- C4 amended: the average reported by analyze is total options over total
segments whenever at least one segment has more than one option (and the
denominator is then positive), but it is 0 whenever there is no such spin
element, even when segments exist. -/
theorem C4_average_guard (fuel : Nat) (cs : List Char) (s : SpintaxStats)
    (h : analyzeF fuel cs = some s) :
    (spinElems (parseSpintax cs) = 0 → s.averageOptionsPerSpin = 0) ∧
    (0 < spinElems (parseSpintax cs) →
      s.averageOptionsPerSpin =
        (totalOptions (parseSpintax cs) : ℚ) / ((parseSpintax cs).length : ℚ) ∧
      (parseSpintax cs).length ≠ 0) := by
  unfold analyzeF at h
  cases hc : countF fuel (parseSpintax cs) with
  | none => rw [hc] at h; cases h
  | some total =>
    rw [hc] at h
    cases h
    constructor
    · intro h0
      simp [h0]
    · intro hpos
      have hle : spinElems (parseSpintax cs) ≤ (parseSpintax cs).length :=
        List.length_filter_le _ _
      exact ⟨by simp [if_pos hpos], by omega⟩

/-- Witness for C4 at a two-option template. -/
theorem C4_average_guard_witness :
    (⟨2, 1, 2⟩ : SpintaxStats).averageOptionsPerSpin =
      (totalOptions (parseSpintax ['{', 'a', '|', 'b', '}']) : ℚ) /
        ((parseSpintax ['{', 'a', '|', 'b', '}']).length : ℚ) :=
  ((C4_average_guard 10 ['{', 'a', '|', 'b', '}'] ⟨2, 1, 2⟩ (by
    have hc : countF 10 (parseSpintax ['{', 'a', '|', 'b', '}']) = some 2 := by decide
    have h1 : totalOptions (parseSpintax ['{', 'a', '|', 'b', '}']) = 2 := by decide
    have h2 : (parseSpintax ['{', 'a', '|', 'b', '}']).length = 1 := by decide
    have h3 : spinElems (parseSpintax ['{', 'a', '|', 'b', '}']) = 1 := by decide
    unfold analyzeF
    rw [hc, h1, h2, h3]
    norm_num)).2 (by decide)).1

/- Claim C2: a spin result can escape the expansion set. -/

/-- C2: on the balanced, non-empty input consisting of an empty first
alternative and the alternative x, when the random oracle draws index 0 the
sampled variation is the empty string; the truthiness fallback of spin then
returns the whole input text, which is not among the two expansions of the
template computed by generateAllCombinations. -/
theorem C2_spin_escapes_expansion :
    spinF 10 (fun _ => 0) ['{', '|', 'x', '}'] = JsRes.ok ['{', '|', 'x', '}'] ∧
    genAllF 10 (parseSpintax ['{', '|', 'x', '}']) = some [[], ['x']] ∧
    validateS ['{', '|', 'x', '}'] = true ∧
    ['{', '|', 'x', '}'] ∉ [([] : List Char), ['x']] := by
  refine ⟨by decide, by decide, by decide, by decide⟩

/- Claims C5 and C7: the all and sequential modes of generate. -/

lemma analyzeF_of_genAll {fuel : Nat} {cs : List Char} {l : List (List Char)}
    (h : genAllF fuel (parseSpintax cs) = some l) :
    analyzeF fuel cs = some
      { totalCombinations := l.length
        spinElements := spinElems (parseSpintax cs)
        averageOptionsPerSpin :=
          if 0 < spinElems (parseSpintax cs) then
            (totalOptions (parseSpintax cs) : ℚ) / ((parseSpintax cs).length : ℚ)
          else 0 } := by
  have hc : countF fuel (parseSpintax cs) = some l.length := by
    rw [countF_eq_genAllF, h]
    rfl
  unfold analyzeF
  rw [hc]

lemma generateF_all_eq (fuel : Nat) (r : Nat → Nat) (cs : List Char) (N : Int)
    (l : List (List Char)) (h : genAllF fuel (parseSpintax cs) = some l) :
    okVariations (generateF fuel r cs N GenMode.all) =
      some (l.take (min l.length 1000)) := by
  unfold generateF
  rw [analyzeF_of_genAll h]
  simp only [modeVariations, h]
  rfl

lemma generateF_sequential_eq (fuel : Nat) (r : Nat → Nat) (cs : List Char) (N : Int)
    (l : List (List Char)) (h : genAllF fuel (parseSpintax cs) = some l) :
    okVariations (generateF fuel r cs N GenMode.sequential) =
      some (jsSlice0 l (min N 1000)) := by
  unfold generateF
  rw [analyzeF_of_genAll h]
  simp only [modeVariations, h]
  rfl

/-- C5 counterexample: the template with the same alternative twice expands
to a duplicated list, which mode all returns unchanged: the variations of
generate in mode all can contain duplicate strings. -/
theorem C5_counterexample :
    okVariations (generateF 10 (fun _ => 0) ['{', 'a', '|', 'a', '}'] 10 GenMode.all) =
      some [['a'], ['a']] ∧
    ¬ ([['a'], ['a']] : List (List Char)).Nodup := by
  constructor
  · rw [generateF_all_eq 10 (fun _ => 0) ['{', 'a', '|', 'a', '}'] 10 [['a'], ['a']]
      (by decide)]
    decide
  · decide

/-- C5 amended: in mode all the variations are exactly the first
min(totalCombinations, 1000) entries of the full expansion - hence all of it
when the total is within the cap - but no deduplication is performed, so
duplicate expansions appear as duplicate variations. -/
theorem C5_all_mode_truncated_expansion (fuel : Nat) (r : Nat → Nat) (cs : List Char)
    (N : Int) (l : List (List Char)) (h : genAllF fuel (parseSpintax cs) = some l) :
    okVariations (generateF fuel r cs N GenMode.all) =
      some (l.take (min l.length 1000)) ∧
    (l.length ≤ 1000 → okVariations (generateF fuel r cs N GenMode.all) = some l) := by
  refine ⟨generateF_all_eq fuel r cs N l h, fun hle => ?_⟩
  rw [generateF_all_eq fuel r cs N l h, min_eq_left hle, List.take_length]

/-- Witness for C5 at a two-option template whose expansion is within the
cap. -/
theorem C5_all_mode_truncated_expansion_witness :
    okVariations (generateF 10 (fun _ => 0) ['{', 'a', '|', 'b', '}'] 10 GenMode.all) =
      some [['a'], ['b']] :=
  (C5_all_mode_truncated_expansion 10 (fun _ => 0) ['{', 'a', '|', 'b', '}'] 10
    [['a'], ['b']] (by decide)).2 (by decide)

/-- C7 counterexample: with the negative count -1, mode sequential returns
all but the last element of the expansion (JavaScript slice semantics for a
negative end index), not the first min(count, 1000) entries, which would be
none at all. -/
theorem C7_counterexample :
    okVariations (generateF 10 (fun _ => 0) ['{', 'A', '|', 'B', '|', 'C', '}'] (-1)
        GenMode.sequential) =
      some [['A'], ['B']] ∧
    [['A'], ['B']] ≠ List.take ((min (-1 : Int) 1000).toNat) [['A'], ['B'], ['C']] := by
  constructor
  · rw [generateF_sequential_eq 10 (fun _ => 0) ['{', 'A', '|', 'B', '|', 'C', '}'] (-1)
      [['A'], ['B'], ['C']] (by decide)]
    decide
  · decide

/-- C7 amended: for every count N that is not negative, mode sequential
returns exactly the first min(N, 1000) entries of the full expansion in its
canonical order, in which the first segment is the outer loop and later
segments vary faster; the second conjunct checks the canonical order on the
template of the specification example, whose first five sequential
variations are A 1, A 2, A 3, B 1, B 2. -/
theorem C7_sequential_canonical_order :
    (∀ (fuel : Nat) (r : Nat → Nat) (cs : List Char) (N : Int) (l : List (List Char)),
      0 ≤ N → genAllF fuel (parseSpintax cs) = some l →
      okVariations (generateF fuel r cs N GenMode.sequential) =
        some (l.take ((min N 1000).toNat))) ∧
    okVariations (generateF 10 (fun _ => 0)
        ['{', 'A', '|', 'B', '|', 'C', '}', ' ', '{', '1', '|', '2', '|', '3', '}'] 5
        GenMode.sequential) =
      some [['A', ' ', '1'], ['A', ' ', '2'], ['A', ' ', '3'], ['B', ' ', '1'],
        ['B', ' ', '2']] := by
  have main : ∀ (fuel : Nat) (r : Nat → Nat) (cs : List Char) (N : Int)
      (l : List (List Char)), 0 ≤ N → genAllF fuel (parseSpintax cs) = some l →
      okVariations (generateF fuel r cs N GenMode.sequential) =
        some (l.take ((min N 1000).toNat)) := by
    intro fuel r cs N l hN h
    rw [generateF_sequential_eq fuel r cs N l h]
    unfold jsSlice0
    rw [if_neg (by omega)]
  refine ⟨main, ?_⟩
  rw [main 10 (fun _ => 0)
    ['{', 'A', '|', 'B', '|', 'C', '}', ' ', '{', '1', '|', '2', '|', '3', '}'] 5
    [['A', ' ', '1'], ['A', ' ', '2'], ['A', ' ', '3'], ['B', ' ', '1'], ['B', ' ', '2'],
      ['B', ' ', '3'], ['C', ' ', '1'], ['C', ' ', '2'], ['C', ' ', '3']]
    (by norm_num) (by decide)]
  decide

/-- Witness for C7 at the specification example with count 5. -/
theorem C7_sequential_canonical_order_witness :
    okVariations (generateF 10 (fun _ => 0) ['{', 'a', '|', 'b', '}'] 1
        GenMode.sequential) =
      some ([['a'], ['b']].take ((min (1 : Int) 1000).toNat)) :=
  C7_sequential_canonical_order.1 10 (fun _ => 0) ['{', 'a', '|', 'b', '}'] 1
    [['a'], ['b']] (by norm_num) (by decide)

/- Claim C3: exceptions and termination of the public operations. -/

lemma isOk_iff {α : Type} {x : JsRes α} : x.isOk = true ↔ ∃ a, x = JsRes.ok a := by
  cases x <;> simp [JsRes.isOk]

lemma cleanParts {fuel : Nat} {seg : List (List Char)} {rest : List (List (List Char))}
    (h : cleanSegsF (fuel + 1) (seg :: rest) = true) :
    seg.isEmpty = false ∧
    (∀ o ∈ seg, '{' ∈ o → cleanSegsF fuel (parseSpintax o) = true) ∧
    cleanSegsF fuel rest = true := by
  simp only [cleanSegsF, Bool.and_eq_true, Bool.not_eq_true', List.all_eq_true] at h
  refine ⟨h.1.1, fun o ho hb => ?_, h.2⟩
  have := h.1.2 o ho
  simpa [hb] using this

lemma cleanMono : ∀ (f₁ : Nat) (segs : List (List (List Char))),
    cleanSegsF f₁ segs = true → ∀ f₂, f₁ ≤ f₂ → cleanSegsF f₂ segs = true := by
  intro f₁
  induction f₁ with
  | zero => intro segs h; simp [cleanSegsF] at h
  | succ f ih =>
    intro segs h f₂ hle
    obtain ⟨k, rfl⟩ : ∃ k, f₂ = k + 1 := ⟨f₂ - 1, by omega⟩
    cases segs with
    | nil => rfl
    | cons seg rest =>
      obtain ⟨h1, h2, h3⟩ := cleanParts h
      simp only [cleanSegsF, Bool.and_eq_true, Bool.not_eq_true', List.all_eq_true]
      refine ⟨⟨h1, fun o ho => ?_⟩, ih rest h3 k (by omega)⟩
      by_cases hb : '{' ∈ o
      · simp only [if_pos hb]
        exact ih (parseSpintax o) (h2 o ho hb) k (by omega)
      · simp [hb]

lemma cleanAll : ∀ (segs : List (List (List Char))) (fuel : Nat),
    cleanSegsF fuel segs = true → ∀ seg ∈ segs,
      seg.isEmpty = false ∧
      ∀ o ∈ seg, '{' ∈ o → ∃ f', f' < fuel ∧ cleanSegsF f' (parseSpintax o) = true := by
  intro segs
  induction segs with
  | nil => intro fuel _ seg hs; cases hs
  | cons seg rest ih =>
    intro fuel h s hs
    cases fuel with
    | zero => simp [cleanSegsF] at h
    | succ f =>
      obtain ⟨h1, h2, h3⟩ := cleanParts h
      rcases List.mem_cons.mp hs with rfl | hs'
      · exact ⟨h1, fun o ho hb => ⟨f, Nat.lt_succ_self f, h2 o ho hb⟩⟩
      · obtain ⟨hne, hopt⟩ := ih f h3 s hs'
        exact ⟨hne, fun o ho hb => by
          obtain ⟨f', hf', hc⟩ := hopt o ho hb
          exact ⟨f', by omega, hc⟩⟩

lemma optMapM_isSome {α β : Type} (f : α → Option β) :
    ∀ l : List α, (∀ a ∈ l, (f a).isSome = true) → (optMapM f l).isSome = true := by
  intro l
  induction l with
  | nil => intro _; rfl
  | cons a l ih =>
    intro h
    obtain ⟨b, hb⟩ := Option.isSome_iff_exists.mp (h a (List.mem_cons_self a l))
    obtain ⟨bs, hbs⟩ :=
      Option.isSome_iff_exists.mp (ih (fun x hx => h x (List.mem_cons_of_mem a hx)))
    simp [optMapM, hb, hbs, bind, Option.bind]

lemma genAllF_ok : ∀ (fuel : Nat) (segs : List (List (List Char))),
    cleanSegsF fuel segs = true → (genAllF fuel segs).isSome = true := by
  intro fuel
  induction fuel with
  | zero => intro segs h; simp [cleanSegsF] at h
  | succ fuel ih =>
    intro segs h
    cases segs with
    | nil => rfl
    | cons seg rest =>
      obtain ⟨h1, h2, h3⟩ := cleanParts h
      obtain ⟨restC, hrestC⟩ := Option.isSome_iff_exists.mp (ih rest h3)
      have hmap : (optMapM
          (fun o => if '{' ∈ o then genAllF fuel (parseSpintax o) else some [o])
          seg).isSome = true := by
        apply optMapM_isSome
        intro o ho
        by_cases hb : '{' ∈ o
        · simp only [if_pos hb]
          exact ih (parseSpintax o) (h2 o ho hb)
        · simp [hb]
      obtain ⟨ex, hex⟩ := Option.isSome_iff_exists.mp hmap
      simp [genAllF, hrestC, hex, bind, Option.bind]

lemma countF_ok (fuel : Nat) (segs : List (List (List Char)))
    (h : cleanSegsF fuel segs = true) : (countF fuel segs).isSome = true := by
  rw [countF_eq_genAllF]
  simpa using genAllF_ok fuel segs h

lemma analyzeF_ok (fuel : Nat) (cs : List Char)
    (h : cleanSegsF fuel (parseSpintax cs) = true) : (analyzeF fuel cs).isSome = true := by
  obtain ⟨total, ht⟩ := Option.isSome_iff_exists.mp (countF_ok fuel _ h)
  simp [analyzeF, ht]

lemma foldl_isOk {σ α : Type} (f : JsRes σ → α → JsRes σ) :
    ∀ (l : List α) (s0 : σ), (∀ (s : σ), ∀ a ∈ l, (f (JsRes.ok s) a).isOk = true) →
      (l.foldl f (JsRes.ok s0)).isOk = true := by
  intro l
  induction l with
  | nil => intro s0 _; rfl
  | cons a l ih =>
    intro s0 h
    obtain ⟨s1, hs1⟩ := isOk_iff.mp (h s0 a (List.mem_cons_self a l))
    rw [List.foldl_cons, hs1]
    exact ih s1 (fun s x hx => h s x (List.mem_cons_of_mem a hx))

lemma foldl_fix {σ α : Type} (f : σ → α → σ) (e : σ) (h : ∀ a, f e a = e) :
    ∀ l : List α, l.foldl f e = e := by
  intro l
  induction l with
  | nil => rfl
  | cons a l ih => rw [List.foldl_cons, h a, ih]

lemma gRVF_ok : ∀ (fuel : Nat) (segs : List (List (List Char))),
    cleanSegsF fuel segs = true →
    ∀ (r : Nat → Nat) (k : Nat) (n : Int), (gRVF fuel r k segs n).isOk = true := by
  intro fuel
  induction fuel with
  | zero => intro segs h; simp [cleanSegsF] at h
  | succ fuel ih =>
    intro segs h r k n
    have hall := cleanAll segs (fuel + 1) h
    have hbuild : ∀ k0 : Nat,
        (segs.foldl (buildStep r (fun k1 o => gRVF fuel r k1 (parseSpintax o) 1))
          (JsRes.ok (([] : List Char), k0))).isOk = true := by
      intro k0
      apply foldl_isOk
      rintro ⟨v, kk⟩ seg hseg
      obtain ⟨hne, hopt⟩ := hall seg hseg
      have hpos : 0 < seg.length := by
        cases seg
        · simp at hne
        · simp
      have hmem : seg.getD (r kk % seg.length) [] ∈ seg := by
        rw [List.getD_eq_getElem seg [] (Nat.mod_lt _ hpos)]
        exact List.getElem_mem _
      simp only [buildStep, hne, Bool.false_eq_true, if_false]
      by_cases hb : '{' ∈ seg.getD (r kk % seg.length) []
      · simp only [if_pos hb]
        obtain ⟨f', hf', hc⟩ := hopt _ hmem hb
        have hclean : cleanSegsF fuel (parseSpintax (seg.getD (r kk % seg.length) [])) =
            true := cleanMono f' _ hc fuel (by omega)
        obtain ⟨⟨nv, k'⟩, hnv⟩ := isOk_iff.mp (ih _ hclean r (kk + 1) 1)
        rw [hnv]
        rfl
      · rw [if_neg hb]
        rfl
    show ((List.range (10 * n).toNat).foldl
      (loopStep n (fun k0 =>
        segs.foldl (buildStep r (fun k1 o => gRVF fuel r k1 (parseSpintax o) 1))
          (.ok ([], k0)))) (.ok ([], k))).isOk = true
    apply foldl_isOk
    rintro ⟨acc, kk⟩ a _
    simp only [loopStep]
    by_cases hlt : (acc.length : Int) < n
    · simp only [if_pos hlt]
      obtain ⟨⟨v, k'⟩, hv⟩ := isOk_iff.mp (hbuild kk)
      rw [hv]
      rfl
    · simp [if_neg hlt, JsRes.isOk]

lemma gRVF_nonpos (fuel : Nat) (r : Nat → Nat) (k : Nat)
    (segs : List (List (List Char))) (n : Int) (hn : n ≤ 0) :
    gRVF (fuel + 1) r k segs n = JsRes.ok ([], k) := by
  show (List.range (10 * n).toNat).foldl _ _ = _
  rw [Int.toNat_of_nonpos (by omega)]
  rfl

lemma spinF_ok (fuel : Nat) (r : Nat → Nat) (cs : List Char)
    (h : cleanSegsF fuel (parseSpintax cs) = true) : (spinF fuel r cs).isOk = true := by
  obtain ⟨⟨vs, k⟩, hv⟩ := isOk_iff.mp (gRVF_ok fuel _ h r 0 1)
  simp [spinF, hv, JsRes.isOk]

lemma generateF_ok (fuel : Nat) (r : Nat → Nat) (cs : List Char) (N : Int)
    (mode : GenMode) (h : cleanSegsF fuel (parseSpintax cs) = true) :
    (generateF fuel r cs N mode).isOk = true := by
  obtain ⟨stats, hstats⟩ := Option.isSome_iff_exists.mp (analyzeF_ok fuel cs h)
  have hmode : (modeVariations fuel r (parseSpintax cs) N stats mode).isOk = true := by
    cases mode with
    | all =>
      obtain ⟨l, hl⟩ := Option.isSome_iff_exists.mp (genAllF_ok fuel _ h)
      simp [modeVariations, hl, JsRes.isOk]
    | sequential =>
      obtain ⟨l, hl⟩ := Option.isSome_iff_exists.mp (genAllF_ok fuel _ h)
      simp [modeVariations, hl, JsRes.isOk]
    | random =>
      obtain ⟨⟨l, k⟩, hl⟩ := isOk_iff.mp (gRVF_ok fuel _ h r 0 (min N 100))
      simp [modeVariations, hl, JsRes.isOk]
  obtain ⟨l, hl⟩ := isOk_iff.mp hmode
  simp [generateF, hstats, hl, JsRes.isOk]

lemma gRVF_openBrace : ∀ (fuel : Nat) (r : Nat → Nat) (k : Nat),
    gRVF fuel r k [[['{']]] 1 = JsRes.diverges := by
  intro fuel
  induction fuel with
  | zero => intro r k; rfl
  | succ fuel ih =>
    intro r k
    have hp : parseSpintax ['{'] = [[['{']]] := by decide
    have hb : ∀ k0 : Nat,
        ([[['{']]] : List (List (List Char))).foldl
          (buildStep r (fun k1 o => gRVF fuel r k1 (parseSpintax o) 1))
          (JsRes.ok (([] : List Char), k0)) = JsRes.diverges := by
      intro k0
      rw [List.foldl_cons]
      have : buildStep r (fun k1 o => gRVF fuel r k1 (parseSpintax o) 1)
          (JsRes.ok (([] : List Char), k0)) [['{']] = JsRes.diverges := by
        simp only [buildStep, List.length_singleton, Nat.mod_one]
        rw [show ([['{']] : List (List Char)).getD 0 [] = ['{'] from rfl]
        rw [if_neg (by simp), if_pos (by simp), hp, ih]
      rw [this]
      rfl
    show (List.range (10 * (1 : Int)).toNat).foldl
      (loopStep 1 (fun k0 =>
        ([[['{']]] : List (List (List Char))).foldl
          (buildStep r (fun k1 o => gRVF fuel r k1 (parseSpintax o) 1))
          (.ok ([], k0)))) (.ok ([], k)) = JsRes.diverges
    rw [show ((10 : Int) * 1).toNat = 10 from rfl,
      show List.range 10 = 0 :: [1, 2, 3, 4, 5, 6, 7, 8, 9] from by decide,
      List.foldl_cons]
    have hstep : loopStep 1 (fun k0 =>
        ([[['{']]] : List (List (List Char))).foldl
          (buildStep r (fun k1 o => gRVF fuel r k1 (parseSpintax o) 1))
          (.ok ([], k0))) (.ok ([], k)) 0 = JsRes.diverges := by
      simp only [loopStep]
      rw [if_pos (by simp), hb k]
    rw [hstep]
    exact foldl_fix _ _ (fun a => rfl) _

/-- C3 counterexample: spin throws on the empty-brackets input (the sampler
reads the first element of an empty alternative set), and on the single
open-brace input spin exhausts every fuel bound, the model of the stack
overflow of the source: not every public operation is exception free on
every input. -/
theorem C3_counterexample :
    spinF 5 (fun _ => 0) ['{', '}'] = JsRes.throws ∧ spinDivergesOnOpenBrace := by
  refine ⟨by decide, fun fuel r => ?_⟩
  unfold spinF
  rw [show parseSpintax ['{'] = [[['{']]] from by decide, gRVF_openBrace]

/-- C3 amended: parsing and validation are total on every input, and the
public operations spin, analyze and generate neither throw nor diverge on
every input whose parse is recursively clean (no empty alternative set and
every open brace matched, at every nesting level); moreover, for a
non-positive requested count, the sampler returns immediately with no
results, spending none of its 10 times count attempt budget. -/
theorem C3_no_exceptions_on_clean_input (fuel : Nat) (r : Nat → Nat) (cs : List Char)
    (N : Int) (mode : GenMode) (h : cleanSegsF fuel (parseSpintax cs) = true) :
    (spinF fuel r cs).isOk = true ∧
    (analyzeF fuel cs).isSome = true ∧
    (generateF fuel r cs N mode).isOk = true ∧
    (∀ (n : Int) (k : Nat) (segs : List (List (List Char))), n ≤ 0 →
      gRVF (fuel + 1) r k segs n = JsRes.ok ([], k)) :=
  ⟨spinF_ok fuel r cs h, analyzeF_ok fuel cs h, generateF_ok fuel r cs N mode h,
    fun n k segs hn => gRVF_nonpos fuel r k segs n hn⟩

/-- Witness for C3 on a clean two-option template. -/
theorem C3_no_exceptions_on_clean_input_witness :
    (spinF 6 (fun _ => 0) ['{', 'a', '|', 'b', '}']).isOk = true :=
  (C3_no_exceptions_on_clean_input 6 (fun _ => 0) ['{', 'a', '|', 'b', '}'] 10
    GenMode.random (by decide)).1

end Spintax
